import Mathlib

/-!
Shallow embedding of pymc/distributions/logprob.py (joint log-density compiler).

Modelling conventions:
* A symbolic tensor `Variable` is represented by its identity (`id`), optional
  `name`, element type `dtype`, static `shape`, and whether its owner op is a
  `RandomVariable` (`isRV`, abstracting `isinstance(var.owner.op, RandomVariable)`).
* Tag metadata (`var.tag.observations`, `var.tag.value_var`, `var.tag.transform`,
  `var.tag.total_size`) lives in a side table `Variable → Tag`, since the Python
  code stores it on the variables themselves.
* Python dicts are insertion-ordered association lists (`PDict` operations).
* Numeric tensor contents are exact rationals (the code's `floatX` float casts
  are modelled exactly); an elementwise log-density graph is a `List ℚ` together
  with an optional graph name (`NamedTensor`).
* External collaborators (aesara's `io_toposort`, aeppl's
  `factorized_joint_logprob`, the `_logcdf` dispatch registry and the value
  substitution pass) are parameters of the compiler functions, constrained only
  by the interface contracts the spec gives them.
-/

namespace PyMC

/-- A symbolic graph variable (aesara `TensorVariable`), identified by `id`. -/
structure Variable where
  id : Nat
  name : Option String := Option.none
  dtype : String := "float64"
  shape : List Nat := []
  isRV : Bool := false
deriving DecidableEq, Repr

/-- A bijective transform is opaque to this module; only its identity matters. -/
abbrev Transform := Nat

/-- One element of a `total_size` list/tuple: an `int`, `None`, `Ellipsis`, or
any other (ill-typed) Python value. -/
inductive TSElem where
  | int (n : Int)
  | none
  | ellipsis
  | other
deriving DecidableEq, Repr

/-- A `total_size` argument: an `int`, a list/tuple of `TSElem`, or any other
(ill-typed) Python value.  `total_size = None` is `Option.none` at use sites. -/
inductive TotalSize where
  | int (n : Int)
  | seq (l : List TSElem)
  | other
deriving DecidableEq, Repr

/-- The metadata carried by `var.tag`; a field is `Option.none` when the Python
object lacks the attribute (`hasattr` is false). -/
structure Tag where
  observations : Option Variable := Option.none
  value_var : Option Variable := Option.none
  transform : Option Transform := Option.none
  total_size : Option TotalSize := Option.none
deriving DecidableEq, Repr

/-- A graph node (`Apply` node) as seen by the discovery loop: its outputs and,
when `node.default_output()` does not raise `ValueError`, that default output. -/
structure Node where
  defaultOutput : Option Variable := Option.none
  outputs : List Variable := []
deriving DecidableEq, Repr

/-- An elementwise log-density graph: its (optional) graph name and its
elementwise values. -/
structure NamedTensor where
  name : Option String := Option.none
  data : List ℚ := []
deriving DecidableEq, Repr

/-- The `rv_values` argument of `logpt`: `None`, a single variable, or a dict. -/
inductive RVValues where
  | none
  | single (v : Variable)
  | map (m : List (Variable × Variable))
deriving DecidableEq, Repr

/-! ### Python dict operations (insertion-ordered association lists) -/

namespace PDict

variable {α β : Type} [DecidableEq α]

/-- `d[k]` lookup returning `Option`. -/
def lookup : List (α × β) → α → Option β
  | [], _ => Option.none
  | (k, v) :: rest, k0 => if k = k0 then some v else lookup rest k0

/-- `d[k] = v`: update in place when the key is present, else append. -/
def insert : List (α × β) → α → β → List (α × β)
  | [], k0, v0 => [(k0, v0)]
  | (k, v) :: rest, k0, v0 =>
      if k = k0 then (k0, v0) :: rest else (k, v) :: insert rest k0 v0

/-- `d.keys()`. -/
def keys (d : List (α × β)) : List α := d.map (fun p => p.1)

/-- `d.values()`. -/
def values (d : List (α × β)) : List β := d.map (fun p => p.2)

theorem lookup_insert (d : List (α × β)) (k : α) (v : β) (k0 : α) :
    lookup (insert d k v) k0 = if k = k0 then some v else lookup d k0 := by
  induction d with
  | nil => simp [insert, lookup]
  | cons p rest ih =>
      obtain ⟨pk, pv⟩ := p
      by_cases hpk : pk = k
      · subst hpk
        by_cases hk0 : pk = k0 <;> simp [insert, lookup, hk0]
      · by_cases hk0 : pk = k0
        · subst hk0
          have hne : ¬ k = pk := fun h => hpk h.symm
          simp [insert, lookup, hpk, hne, ih]
        · simp [insert, lookup, hpk, hk0, ih]

theorem insert_ne_nil (d : List (α × β)) (k : α) (v : β) : insert d k v ≠ [] := by
  cases d with
  | nil => simp [insert]
  | cons p rest =>
      obtain ⟨pk, pv⟩ := p
      by_cases h : pk = k <;> simp [insert, h]

theorem mem_values_of_lookup {d : List (α × β)} {k : α} {v : β}
    (h : lookup d k = some v) : v ∈ values d := by
  induction d with
  | nil => simp [lookup] at h
  | cons p rest ih =>
      obtain ⟨pk, pv⟩ := p
      by_cases hk : pk = k
      · simp [lookup, hk] at h
        simp [values, h]
      · simp [lookup, hk] at h
        exact List.mem_cons_of_mem _ (ih h)

theorem mem_keys_insert {d : List (α × β)} {k : α} {v : β} {x : α}
    (h : x ∈ keys (insert d k v)) : x = k ∨ x ∈ keys d := by
  induction d with
  | nil => simpa [insert, keys] using h
  | cons p rest ih =>
      obtain ⟨pk, pv⟩ := p
      by_cases hpk : pk = k
      · subst hpk
        simpa [insert, keys] using h
      · simp [insert, keys, hpk] at h
        rcases h with h | h
        · exact Or.inr (by simp [keys, h])
        · rcases ih (by simpa [keys] using h) with h1 | h1
          · exact Or.inl h1
          · exact Or.inr (by simp [keys]; exact Or.inr (by simpa [keys] using h1))

theorem lookup_head {k : α} {v : β} {rest : List (α × β)} :
    lookup ((k, v) :: rest) k = some v := by simp [lookup]

end PDict

instance {ε α : Type} [DecidableEq ε] [DecidableEq α] : DecidableEq (Except ε α)
  | Except.ok x, Except.ok y =>
      if h : x = y then Decidable.isTrue (by rw [h])
      else Decidable.isFalse (fun hc => h (Except.ok.inj hc))
  | Except.ok _, Except.error _ => Decidable.isFalse (fun hc => Except.noConfusion hc)
  | Except.error _, Except.ok _ => Decidable.isFalse (fun hc => Except.noConfusion hc)
  | Except.error e, Except.error f =>
      if h : e = f then Decidable.isTrue (by rw [h])
      else Decidable.isFalse (fun hc => h (Except.error.inj hc))

/-! ### Scaling calculator (`_get_scaling`) -/

/-- Errors raised by `_get_scaling`: `TypeError` for ill-typed `total_size`,
`ValueError` for double `Ellipsis` or too many scalings.  The spec's taxonomy
groups both as `InvalidSpecError`. -/
inductive ScalingError where
  | typeError
  | valueError
deriving DecidableEq, Repr

/-- `floatX` casts an int to the configured float type; modelled exactly in ℚ. -/
def floatX (n : Int) : ℚ := (n : ℚ)

/-- Is this element allowed by `all(isinstance(i, int) for i in total_size if
(i is not Ellipsis and i is not None))`? -/
def isIntOrMarker : TSElem → Bool
  | TSElem.other => false
  | _ => true

/-- Is this element the `Ellipsis` marker? -/
def isEllipsis : TSElem → Bool
  | TSElem.ellipsis => true
  | _ => false

/-- `total_size[:total_size.index(Ellipsis)]` when an `Ellipsis` is present,
otherwise the whole sequence (the Python code's `begin`). -/
def seqBegin (l : List TSElem) : List TSElem :=
  l.takeWhile (fun e => !isEllipsis e)

/-- `total_size[total_size.index(Ellipsis) + 1 :]` when an `Ellipsis` is
present, otherwise `[]` (the Python code's `end`). -/
def seqEnd (l : List TSElem) : List TSElem :=
  (l.dropWhile (fun e => !isEllipsis e)).tail

/-- The per-axis coefficients `[floatX(t) / shp[i] for i, t in enumerate(entries)
if t is not None]`, where the enumeration index is offset by `base` into `shp`
(the code indexes the slices `shp_begin`/`shp_end` from 0, i.e. `base = 0`). -/
def axisFactors (shp : List Nat) (base : Nat) : List TSElem → List ℚ
  | [] => []
  | TSElem.int t :: rest => (floatX t / ((shp.getD base 1 : Nat) : ℚ)) :: axisFactors shp (base + 1) rest
  | _ :: rest => axisFactors shp (base + 1) rest

/-- `_get_scaling(total_size, shape, ndim)`: the minibatch scaling coefficient.
`shape` is the value variable's (symbolic) shape, modelled as a concrete list;
out-of-range indexing (deferred to run time in aesara) defaults to 1. -/
def _get_scaling (total_size : Option TotalSize) (shape : List Nat) (ndim : Nat) :
    Except ScalingError ℚ :=
  match total_size with
  | Option.none => Except.ok (floatX 1)
  | some (TotalSize.int t) =>
      let denom : ℚ := if 1 ≤ ndim then ((shape.getD 0 1 : Nat) : ℚ) else 1
      Except.ok (floatX t / denom)
  | some (TotalSize.seq l) =>
      if !(l.all isIntOrMarker) then Except.error ScalingError.typeError
      else
        let b := seqBegin l
        let e := seqEnd l
        if (seqEnd l).any isEllipsis then Except.error ScalingError.valueError
        else if ndim < b.length + e.length then Except.error ScalingError.valueError
        else if b.length + e.length = 0 then Except.ok (floatX 1)
        else
          let shpEnd := if 0 < e.length then shape.drop (shape.length - e.length) else []
          let shpBegin := shape.take b.length
          let beginCoef := axisFactors shpBegin 0 b
          let endCoef := axisFactors shpEnd 0 e
          Except.ok ((beginCoef ++ endCoef).prod)
  | some TotalSize.other => Except.error ScalingError.typeError

/-! ### Joint density compiler (`logpt`) -/

/-- A value map / transform map, as passed around by `logpt`. -/
abbrev ValueMap := List (Variable × Variable)

/-- The side table of tag metadata. -/
abbrev Tags := Variable → Tag

/-- The external factorized joint log-probability builder
(`aeppl.factorized_joint_logprob`): from the full rv-to-value map, the
transform map (wrapped by `TransformValuesOpt`) and the `use_jacobian` flag, a
map from each value variable to its elementwise log-density graph. -/
abbrev Builder := ValueMap → List (Variable × Transform) → Bool → List (Variable × NamedTensor)

/-- `getattr(v.tag, "observations", getattr(v.tag, "value_var", None))`. -/
def tagValueOpt (tags : Tags) (v : Variable) : Option Variable :=
  ((tags v).observations).orElse (fun _ => (tags v).value_var)

/-- `getattr(v.tag, "observations", getattr(v.tag, "value_var", v))`. -/
def tagValueOrSelf (tags : Tags) (v : Variable) : Variable :=
  (tagValueOpt tags v).getD v

/-- `at.as_tensor_variable(w).astype(dtype)` (also
`at.as_tensor_variable(w, dtype=dtype)`): element-type coercion. -/
def asType (w : Variable) (dtype : String) : Variable :=
  { w with dtype := dtype }

/-- The default requested-value map built by `logpt` when `rv_values is None`:
for each listed variable whose owner op is a `RandomVariable`, the map is
REASSIGNED (not extended) to the singleton `{_var: rv_value_var}` — faithfully
reproducing `rv_values = {_var: rv_value_var}` inside the loop. -/
def defaultRvValues (vars : List Variable) (tags : Tags) : ValueMap :=
  vars.foldl
    (fun acc v => if v.isRV then [(v, tagValueOrSelf tags v)] else acc) []

/-- Normalization of the `rv_values` argument at the top of `logpt`:
`None` triggers the default-construction loop; a single non-mapping value with
exactly one requested variable becomes `{var[0]: value.astype(var[0].type)}`
(else `{}`); a mapping is used as-is. -/
def normalizeRvValues (var : List Variable) (tags : Tags) (rv_values : RVValues) : ValueMap :=
  match rv_values with
  | RVValues.none => defaultRvValues var tags
  | RVValues.single w =>
      match var with
      | [v] => [(v, asType w v.dtype)]
      | _ => []
  | RVValues.map m => m

/-- The per-variable scaling map: for each requested variable,
`rv_scalings[rv_value_var] = _get_scaling(total_size, rv_value_var.shape,
rv_value_var.ndim)`; a `TypeError`/`ValueError` from `_get_scaling` aborts. -/
def rvScalings (vars : List Variable) (tags : Tags) :
    Except ScalingError (List (Variable × ℚ)) :=
  vars.foldlM
    (fun acc v => do
      let w := tagValueOrSelf tags v
      let c ← _get_scaling ((tags v).total_size) w.shape w.shape.length
      pure (PDict.insert acc w c))
    []

/-- The output variables the discovery loop inspects for one node:
`[node.default_output()]`, or `node.outputs` when that raises `ValueError`. -/
def currVars (n : Node) : List Variable :=
  match n.defaultOutput with
  | some v => [v]
  | Option.none => n.outputs

/-- All variables inspected by the discovery loop, in the order produced by the
external `io_toposort(graph_inputs(var), var)` traversal (which the caller of
this embedding supplies as `nodes`). -/
def discoveredVars (nodes : List Node) : List Variable :=
  (nodes.map currVars).flatten

/-- One step of the discovery loop body, for one inspected variable `cv`:
if `cv` carries an observed or free value tag, bind `cv` to the caller's value
for it when present (else the tagged value) in the accumulated full value map,
and record the tagged value's transform (keyed by the chosen value) when
transforms are enabled. -/
def discoverStep (rv_values : ValueMap) (tags : Tags) (transformed : Bool)
    (st : ValueMap × List (Variable × Transform)) (cv : Variable) :
    ValueMap × List (Variable × Transform) :=
  match tagValueOpt tags cv with
  | Option.none => st
  | some rvValueVar =>
      let rvValue := (PDict.lookup rv_values cv).getD rvValueVar
      let tmp := PDict.insert st.1 cv rvValue
      let tm :=
        match (tags rvValueVar).transform, transformed with
        | some tr, true => PDict.insert st.2 rvValue tr
        | _, _ => st.2
      (tmp, tm)

/-- The value/transform discovery pass of `logpt` (the `io_toposort` loop):
starting from a copy of the requested map, fold the loop body over every
inspected variable, yielding `(tmp_rvs_to_values, transform_map)`. -/
def discover (nodes : List Node) (rv_values : ValueMap) (tags : Tags)
    (transformed : Bool) : ValueMap × List (Variable × Transform) :=
  (discoveredVars nodes).foldl (discoverStep rv_values tags transformed) (rv_values, [])

/-- The filtering step of `logpt`: keep only the entries of the builder's
output whose value variable is in `rv_values.values()`. -/
def filterLogp (temp : List (Variable × NamedTensor)) (rv_values : ValueMap) :
    List (Variable × NamedTensor) :=
  temp.foldl
    (fun acc p =>
      if p.1 ∈ PDict.values rv_values then PDict.insert acc p.1 p.2 else acc)
    []

/-- `logp_var_dict[_value] *= rv_scalings[_value]`: multiplication by a scalar
produces a fresh, unnamed graph variable. -/
def scaleTensor (t : NamedTensor) (c : ℚ) : NamedTensor :=
  { name := Option.none, data := t.data.map (fun x => x * c) }

/-- The scaling-application loop: each retained entry whose value has a scaling
coefficient is multiplied by it. -/
def applyScalings (d : List (Variable × NamedTensor)) (s : List (Variable × ℚ)) :
    List (Variable × NamedTensor) :=
  d.map
    (fun p =>
      match PDict.lookup s p.1 with
      | some c => (p.1, scaleTensor p.2 c)
      | Option.none => p)

/-- `at.sum(t)`: reduce an elementwise graph to an (unnamed) scalar graph. -/
def atSum (t : NamedTensor) : NamedTensor :=
  { name := Option.none, data := [t.data.sum] }

/-- `at.add(*ts)`: elementwise addition of the given graphs (unnamed result). -/
def atAddList (ts : List NamedTensor) : NamedTensor :=
  match ts with
  | [] => { name := Option.none, data := [] }
  | t :: rest =>
      { name := Option.none
        data := rest.foldl (fun acc u => List.zipWith (fun a b => a + b) acc u.data) t.data }

/-- The reduction step of `logpt` on a non-empty retained map: a sole entry is
returned as-is (summed when `sum=True`); with several entries, `sum=True` gives
`at.sum([at.sum(factor) for factor in values])` and `sum=False` gives
`at.add(*values)`. -/
def reduceLogp (d : List (Variable × NamedTensor)) (sum : Bool) : NamedTensor :=
  if d.length = 1 then
    let t := (d.map (fun p => p.2)).headD { name := Option.none, data := [] }
    if sum then atSum t else t
  else
    if sum then
      { name := Option.none, data := [(d.map (fun p => p.2.data.sum)).sum] }
    else atAddList (d.map (fun p => p.2))

/-- What `logpt` produces: the resulting graph (or `None` when the retained map
is empty) together with whether the empty-value-map diagnostic was emitted. -/
structure LogptOutput where
  result : Option NamedTensor
  warned : Bool
deriving DecidableEq, Repr

/-- `logpt(var, rv_values, jacobian=…, scaling=…, transformed=…, sum=…)`.
`nodes` is the externally supplied topological traversal of the graph between
`graph_inputs(var)` and `var`; `builder` is the external joint-density graph
builder.  The test-value recomputation loop at the end (an aesara debug
facility active only when `config.compute_test_value != "off"`) mutates no
graph output and is not modelled. -/
def logpt (nodes : List Node) (builder : Builder) (var : List Variable)
    (rv_values : RVValues) (tags : Tags)
    (jacobian scaling transformed sum : Bool) : Except ScalingError LogptOutput :=
  let rvv := normalizeRvValues var tags rv_values
  let warned := rvv.isEmpty
  match (if scaling then rvScalings var tags else Except.ok []) with
  | Except.error e => Except.error e
  | Except.ok scalings =>
      let st := discover nodes rvv tags transformed
      let temp := builder st.1 st.2 jacobian
      let filtered := filterLogp temp rvv
      if filtered.isEmpty then Except.ok { result := Option.none, warned := warned }
      else
        let scaled := if scaling then applyScalings filtered scalings else filtered
        Except.ok { result := some (reduceLogp scaled sum), warned := warned }

/-! ### Entry point `logp` -/

/-- The value `logp` would attach to an untagged variable: `rv_values[var]` for
a mapping (`None` on a `KeyError`), the value itself otherwise (`None` when no
value was given, in which case the coercion raises). -/
def logpValueFor (rv_values : RVValues) (v : Variable) : Option Variable :=
  match rv_values with
  | RVValues.map m => PDict.lookup m v
  | RVValues.single w => some w
  | RVValues.none => Option.none

/-- Overwrite the `value_var` tag of `v` in the side table. -/
def updateValueVar (tags : Tags) (v : Variable) (w : Variable) : Tags :=
  fun u => if u = v then { tags v with value_var := some w } else tags u

/-- `logp(var, rv_values, **kwargs)`: attach
`at.as_tensor_variable(value_var, dtype=var.dtype)` as `var.tag.value_var`
when the tag is absent, then delegate to `logpt`.  Returns the `logpt` result
together with the (possibly updated) tag table; `Option.none` models the
uncaught `KeyError`/`TypeError` when no value can be attached. -/
def logp (nodes : List Node) (builder : Builder) (v : Variable)
    (rv_values : RVValues) (tags : Tags)
    (jacobian scaling transformed sum : Bool) :
    Option (Except ScalingError LogptOutput × Tags) :=
  if ((tags v).value_var).isSome then
    some (logpt nodes builder [v] rv_values tags jacobian scaling transformed sum, tags)
  else
    (logpValueFor rv_values v).map
      (fun w =>
        let tags1 := updateValueVar tags v (asType w v.dtype)
        (logpt nodes builder [v] rv_values tags1 jacobian scaling transformed sum, tags1))

/-! ### Log-CDF compiler (`logcdfpt`) -/

/-- Errors raised by `logcdfpt`: the missing-value `ValueError`, the
type-compatibility `TypeError` from `type.filter_variable`, the
`NotImplementedError` of the `_logcdf` dispatch default, the `AttributeError`
from `rv_var.owner` when the target is not a random variable, and propagated
`_get_scaling` errors. -/
inductive CdfError where
  | missingValue
  | typeMismatch
  | notImplemented
  | attributeError
  | scalingError (e : ScalingError)
deriving DecidableEq, Repr

/-- Modelled from the spec: `pymc.aesaraf.extract_rv_and_value_vars` is not
part of this source tree.  Spec 4.5 step 1: "Resolve the target's underlying
random-variable node and its associated free value (if any)" — when the target
is a random variable, return it with its tagged free value; otherwise neither. -/
def extract_rv_and_value_vars (tags : Tags) (v : Variable) :
    Option Variable × Option Variable :=
  if v.isRV then (some v, (tags v).value_var) else (Option.none, Option.none)

/-- Normalization of the `rv_values` argument at the top of `logcdfpt`:
`rv_values = {var: rv_values} if rv_values is not None else {}` for a
non-mapping argument. -/
def normalizeCdfValues (var : Variable) (rv_values : RVValues) : ValueMap :=
  match rv_values with
  | RVValues.map m => m
  | RVValues.single w => [(var, w)]
  | RVValues.none => []

/-- `rv_value = rv_values.get(rv_var, rv_value_var)`: the explicit value for
the resolved random variable when present, else the tagged value. -/
def resolveCdfValue (m : ValueMap) (rvVar : Option Variable)
    (rvValueVar : Option Variable) : Option Variable :=
  match rvVar with
  | some r => (PDict.lookup m r).orElse (fun _ => rvValueVar)
  | Option.none => rvValueVar

/-- Modelled from the spec: aesara's `rv_var.type.filter_variable` (spec 4.5
step 3 — "validate shape/type compatibility via the target's type constraints,
fails with TypeMismatchError otherwise"). -/
def filter_variable (target : Variable) (v : Variable) : Except CdfError Variable :=
  if v.shape = target.shape then Except.ok v else Except.error CdfError.typeMismatch

/-- `logcdfpt(var, rv_values, scaling=…, sum=…)`.  The `_logcdf` dispatch
registry and the `rvs_to_value_vars` substitution pass (external / outside this
source tree) are parameters: `dispatch rv tmp` is `_logcdf(rv_node.op, rv_var,
tmp_rv_values, *dist_params)` (`Option.none` when no implementation is
registered) and `subst lp replacements` replaces random variables with their
value variables throughout `lp` without re-applying transforms. -/
def logcdfpt (dispatch : Variable → ValueMap → Option NamedTensor)
    (subst : NamedTensor → ValueMap → NamedTensor)
    (var : Variable) (rv_values : RVValues) (tags : Tags)
    (scaling sum : Bool) : Except CdfError NamedTensor :=
  let m := normalizeCdfValues var rv_values
  let rvVar0 := (extract_rv_and_value_vars tags var).1
  let rvValueVar0 := (extract_rv_and_value_vars tags var).2
  let rvValue0 := resolveCdfValue m rvVar0 rvValueVar0
  if rvVar0.isSome && rvValue0.isNone then Except.error CdfError.missingValue
  else
    match rvVar0 with
    | Option.none => Except.error CdfError.attributeError
    | some rvVar =>
        match rvValue0 with
        | Option.none => Except.error CdfError.attributeError
        | some rvValueRaw =>
            match filter_variable rvVar (asType rvValueRaw rvVar.dtype) with
            | Except.error e => Except.error e
            | Except.ok rvValue =>
                let rvValueVar := rvValueVar0.getD rvValue
                let tmp := PDict.insert m rvVar rvVar
                match dispatch rvVar tmp with
                | Option.none => Except.error CdfError.notImplemented
                | some lp0 =>
                    let replacements :=
                      PDict.insert (PDict.insert m rvVar rvValue) rvValueVar rvValue
                    let lp1 := subst lp0 replacements
                    let lp2 := if sum then atSum lp1 else lp1
                    match
                      (if scaling then
                        _get_scaling ((tags rvVar).total_size) rvValue.shape
                          rvValue.shape.length
                      else Except.ok 1) with
                    | Except.error e => Except.error (CdfError.scalingError e)
                    | Except.ok c =>
                        let lp3 := if scaling then scaleTensor lp2 c else lp2
                        Except.ok
                          (match rvVar.name with
                          | some nm => { lp3 with name := some ("__logp_" ++ nm) }
                          | Option.none => lp3)

/-! ### Spec-side characterisation of malformed `total_size` (claim C4) -/

/-- Is this element a non-integer other than `None` and `Ellipsis`? -/
def isOtherElem : TSElem → Bool
  | TSElem.other => true
  | _ => false

/-- Stated from the spec's words, for comparison with `_get_scaling`: a
`total_size` specification is malformed when a sequence contains a non-integer
element other than `None`/`Ellipsis`, contains more than one `Ellipsis`, or has
non-`Ellipsis` length exceeding `ndim`; or when `total_size` is neither `None`,
an integer, nor a sequence. -/
def invalidTotalSize (ts : Option TotalSize) (ndim : Nat) : Bool :=
  match ts with
  | Option.none => false
  | some (TotalSize.int _) => false
  | some (TotalSize.seq l) =>
      l.any isOtherElem
        || decide (2 ≤ l.countP isEllipsis)
        || decide (ndim < (l.filter (fun e => !isEllipsis e)).length)
  | some TotalSize.other => true

theorem all_isIntOrMarker_eq (l : List TSElem) :
    l.all isIntOrMarker = !(l.any isOtherElem) := by
  induction l with
  | nil => rfl
  | cons x t ih => cases x <;> simp [isIntOrMarker, isOtherElem, ih]

theorem seqEnd_any_ellipsis (l : List TSElem) :
    (seqEnd l).any isEllipsis = true ↔ 2 ≤ l.countP isEllipsis := by
  induction l with
  | nil => simp [seqEnd]
  | cons x t ih =>
      by_cases hx : isEllipsis x = true
      · have hend : seqEnd (x :: t) = t := by
          simp [seqEnd, List.dropWhile_cons, hx]
        have hcount : (x :: t).countP isEllipsis = t.countP isEllipsis + 1 :=
          List.countP_cons_of_pos _ _ hx
        rw [hend, hcount]
        constructor
        · intro h
          rcases List.any_eq_true.mp h with ⟨a, ha, hpa⟩
          have : 0 < t.countP isEllipsis := List.countP_pos_iff.mpr ⟨a, ha, hpa⟩
          omega
        · intro h
          have : 0 < t.countP isEllipsis := by omega
          rcases List.countP_pos_iff.mp this with ⟨a, ha, hpa⟩
          exact List.any_eq_true.mpr ⟨a, ha, hpa⟩
      · have hx' : isEllipsis x = false := by simpa using hx
        have hend : seqEnd (x :: t) = seqEnd t := by
          simp [seqEnd, List.dropWhile_cons, hx']
        have hcount : (x :: t).countP isEllipsis = t.countP isEllipsis :=
          List.countP_cons_of_neg _ _ (by simp [hx'])
        rw [hend, hcount]
        exact ih

theorem seqSplit_length (l : List TSElem)
    (h : (seqEnd l).any isEllipsis = false) :
    (seqBegin l).length + (seqEnd l).length
      = (l.filter (fun e => !isEllipsis e)).length := by
  induction l with
  | nil => simp [seqBegin, seqEnd]
  | cons x t ih =>
      by_cases hx : isEllipsis x = true
      · have hbegin : seqBegin (x :: t) = [] := by
          simp [seqBegin, List.takeWhile_cons, hx]
        have hend : seqEnd (x :: t) = t := by
          simp [seqEnd, List.dropWhile_cons, hx]
        have ht : t.any isEllipsis = false := by rw [hend] at h; exact h
        have hfilt : t.filter (fun e => !isEllipsis e) = t := by
          rw [List.filter_eq_self]
          intro a ha
          have := List.any_eq_false.mp ht a ha
          simpa using this
        simp [hbegin, hend, List.filter_cons, hx, hfilt]
      · have hx' : isEllipsis x = false := by simpa using hx
        have hbegin : seqBegin (x :: t) = x :: seqBegin t := by
          simp [seqBegin, List.takeWhile_cons, hx']
        have hend : seqEnd (x :: t) = seqEnd t := by
          simp [seqEnd, List.dropWhile_cons, hx']
        rw [hend] at h
        have hih := ih h
        simp only [hbegin, hend, List.filter_cons, hx', List.length_cons]
        simp only [Bool.not_false, if_pos, List.length_cons]
        omega

/-! ### Indexing lemmas for the scaling formula (claim C3) -/

theorem getD_take (shape : List Nat) :
    ∀ n i : Nat, i < n → (shape.take n).getD i 1 = shape.getD i 1 := by
  induction shape with
  | nil => intro n i _; simp
  | cons s t ih =>
      intro n i hin
      cases n with
      | zero => omega
      | succ n =>
          cases i with
          | zero => simp
          | succ i =>
              simp only [List.take_succ_cons, List.getD_cons_succ]
              exact ih n i (by omega)

theorem getD_drop (shape : List Nat) :
    ∀ k i : Nat, (shape.drop k).getD i 1 = shape.getD (k + i) 1 := by
  induction shape with
  | nil => intro k i; simp
  | cons s t ih =>
      intro k i
      cases k with
      | zero => simp
      | succ k =>
          simp only [List.drop_succ_cons]
          rw [ih k i]
          have : k + 1 + i = (k + i) + 1 := by omega
          rw [this, List.getD_cons_succ]

theorem axisFactors_take (shp : List Nat) (n : Nat) (l : List TSElem) :
    ∀ i, i + l.length ≤ n → axisFactors (shp.take n) i l = axisFactors shp i l := by
  induction l with
  | nil => intro i _; rfl
  | cons x t ih =>
      intro i hi
      have hlen : i + 1 + t.length ≤ n := by simp at hi; omega
      cases x with
      | int m =>
          have hin : i < n := by simp at hi; omega
          simp only [axisFactors, getD_take shp n i hin, ih (i + 1) hlen]
      | none => simp only [axisFactors, ih (i + 1) hlen]
      | ellipsis => simp only [axisFactors, ih (i + 1) hlen]
      | other => simp only [axisFactors, ih (i + 1) hlen]

theorem axisFactors_drop (shp : List Nat) (k : Nat) (l : List TSElem) :
    ∀ i, axisFactors (shp.drop k) i l = axisFactors shp (k + i) l := by
  induction l with
  | nil => intro i; rfl
  | cons x t ih =>
      intro i
      have harith : k + i + 1 = k + (i + 1) := by omega
      cases x with
      | int m =>
          simp only [axisFactors, getD_drop shp k i, ih (i + 1), harith]
      | none => simp only [axisFactors, ih (i + 1), harith]
      | ellipsis => simp only [axisFactors, ih (i + 1), harith]
      | other => simp only [axisFactors, ih (i + 1), harith]

/-! ### Claims C3 and C4: the scaling calculator -/

/-- C3: `_get_scaling` is a pure function satisfying: `total_size = None`
yields 1; an integer `T` yields `T / shape[0]` when `ndim ≥ 1` and `T / 1`
otherwise; a valid integer/`None`/`Ellipsis` sequence yields the product, over
non-`None` entries, of `t / shape[axis]`, prefix entries indexed from the
front and suffix entries indexed from `shape.length - end.length + i`, the
empty product being 1. -/
theorem scaling_C3 (shape : List Nat) (ndim : Nat) (T : Int) (l : List TSElem) :
    _get_scaling Option.none shape ndim = Except.ok 1
      ∧ (shape.length = ndim →
          _get_scaling (some (TotalSize.int T)) shape ndim =
            Except.ok
              (match shape with
                | [] => (T : ℚ) / 1
                | s0 :: _ => if 1 ≤ ndim then (T : ℚ) / (s0 : ℚ) else (T : ℚ) / 1))
      ∧ (shape.length = ndim →
          invalidTotalSize (some (TotalSize.seq l)) ndim = false →
          _get_scaling (some (TotalSize.seq l)) shape ndim =
            Except.ok
              ((axisFactors shape 0 (seqBegin l)
                  ++ axisFactors shape (shape.length - (seqEnd l).length) (seqEnd l)).prod)) := by
  refine ⟨rfl, ?_, ?_⟩
  · intro hnd
    cases shape with
    | nil =>
        simp only [List.length_nil] at hnd
        simp [_get_scaling, ← hnd, floatX]
    | cons s0 rest =>
        have h1 : 1 ≤ ndim := by simp only [List.length_cons] at hnd; omega
        simp [_get_scaling, h1, floatX]
  · intro hnd hvalid
    have hA : l.all isIntOrMarker = true := by
      simp only [invalidTotalSize, Bool.or_eq_false_iff] at hvalid
      rw [all_isIntOrMarker_eq, hvalid.1.1, Bool.not_false]
    have hB : (seqEnd l).any isEllipsis = false := by
      simp only [invalidTotalSize, Bool.or_eq_false_iff, decide_eq_false_iff_not] at hvalid
      by_contra hB
      exact hvalid.1.2 ((seqEnd_any_ellipsis l).mp (by simpa using hB))
    have hlen : (seqBegin l).length + (seqEnd l).length
        = (l.filter (fun e => !isEllipsis e)).length := seqSplit_length l hB
    have hC : ¬ ndim < (seqBegin l).length + (seqEnd l).length := by
      simp only [invalidTotalSize, Bool.or_eq_false_iff, decide_eq_false_iff_not] at hvalid
      rw [hlen]; exact hvalid.2
    by_cases hzero : (seqBegin l).length + (seqEnd l).length = 0
    · have hb : seqBegin l = [] := List.length_eq_zero.mp (by omega)
      have he : seqEnd l = [] := List.length_eq_zero.mp (by omega)
      simp [_get_scaling, hA, hB, hC, hzero, hb, he, axisFactors, floatX]
    · have hbtake : axisFactors (shape.take (seqBegin l).length) 0 (seqBegin l)
          = axisFactors shape 0 (seqBegin l) :=
        axisFactors_take shape (seqBegin l).length (seqBegin l) 0 (by omega)
      have hedrop : axisFactors (shape.drop (shape.length - (seqEnd l).length)) 0 (seqEnd l)
          = axisFactors shape (shape.length - (seqEnd l).length) (seqEnd l) := by
        rw [axisFactors_drop shape (shape.length - (seqEnd l).length) (seqEnd l) 0,
          Nat.add_zero]
      by_cases hepos : 0 < (seqEnd l).length
      · simp [_get_scaling, hA, hB, hC, hzero, hepos, hbtake, hedrop]
      · have he : seqEnd l = [] := List.length_eq_zero.mp (by omega)
        have hC1 : ¬ ndim < (seqBegin l).length := by
          rw [he] at hC; simpa using hC
        have hb0 : ¬ seqBegin l = [] := by
          intro h
          rw [h, he] at hzero
          simp at hzero
        simp [_get_scaling, hA, hB, hC, hzero, hepos, hbtake, he, hC1, hb0, axisFactors]

/-- C3 witness: `total_size = (100, Ellipsis)`, `shape = (10, 5)`, `ndim = 2`
scales only axis 0, and the integer and `None` cases evaluate as claimed. -/
theorem scaling_C3_witness :
    _get_scaling Option.none [10, 5] 2 = Except.ok 1
      ∧ _get_scaling (some (TotalSize.int 100)) [10, 5] 2 = Except.ok 10
      ∧ _get_scaling (some (TotalSize.seq [TSElem.int 100, TSElem.ellipsis])) [10, 5] 2
          = Except.ok 10 := by
  refine ⟨(scaling_C3 [10, 5] 2 100 []).1, ?_, ?_⟩
  · have h := (scaling_C3 [10, 5] 2 100 []).2.1 rfl
    rw [h]; norm_num
  · have h := (scaling_C3 [10, 5] 2 100 [TSElem.int 100, TSElem.ellipsis]).2.2 rfl (by decide)
    rw [h]
    norm_num [seqBegin, seqEnd, axisFactors, List.takeWhile, List.dropWhile, isEllipsis, floatX]

/-- C4: `_get_scaling` fails (with the spec's `InvalidSpecError`, i.e. a
`TypeError` or `ValueError`) exactly on malformed `total_size` specifications
as characterised by `invalidTotalSize`, and succeeds otherwise. -/
theorem scaling_C4 (ts : Option TotalSize) (shape : List Nat) (ndim : Nat) :
    (∃ e, _get_scaling ts shape ndim = Except.error e)
      ↔ invalidTotalSize ts ndim = true := by
  cases ts with
  | none => simp [_get_scaling, invalidTotalSize]
  | some t =>
      cases t with
      | int n => simp [_get_scaling, invalidTotalSize]
      | other => simp [_get_scaling, invalidTotalSize]
      | seq l =>
          by_cases hA : l.all isIntOrMarker = true
          · have hA' : l.any isOtherElem = false := by
              have := all_isIntOrMarker_eq l
              rw [hA] at this
              cases h : l.any isOtherElem
              · rfl
              · rw [h] at this; simp at this
            by_cases hB : (seqEnd l).any isEllipsis = true
            · have hB' : 2 ≤ l.countP isEllipsis := (seqEnd_any_ellipsis l).mp hB
              constructor
              · intro _
                simp [invalidTotalSize, hA', hB']
              · intro _
                by_cases hC : ndim < (seqBegin l).length + (seqEnd l).length <;>
                  exact ⟨ScalingError.valueError, by simp [_get_scaling, hA, hB, hC]⟩
            · have hBf : (seqEnd l).any isEllipsis = false := by
                cases h : (seqEnd l).any isEllipsis
                · rfl
                · exact absurd h hB
              have hB' : ¬ 2 ≤ l.countP isEllipsis := by
                intro h
                exact hB ((seqEnd_any_ellipsis l).mpr h)
              have hlen : (seqBegin l).length + (seqEnd l).length
                  = (l.filter (fun e => !isEllipsis e)).length := seqSplit_length l hBf
              by_cases hC : ndim < (seqBegin l).length + (seqEnd l).length
              · constructor
                · intro _
                  simp only [invalidTotalSize]
                  have : ndim < (l.filter (fun e => !isEllipsis e)).length := by omega
                  simp [this]
                · intro _
                  exact ⟨ScalingError.valueError, by simp [_get_scaling, hA, hBf, hC]⟩
              · constructor
                · rintro ⟨e, he⟩
                  by_cases hzero : (seqBegin l).length + (seqEnd l).length = 0 <;>
                    by_cases hepos : 0 < (seqEnd l).length <;>
                      simp [_get_scaling, hA, hBf, hC, hzero, hepos] at he
                · intro hinv
                  simp only [invalidTotalSize, hA', Bool.false_or, Bool.or_eq_true,
                    decide_eq_true_eq] at hinv
                  rcases hinv with h | h
                  · exact absurd h hB'
                  · omega
          · have hAf : l.all isIntOrMarker = false := by
              cases h : l.all isIntOrMarker
              · rfl
              · exact absurd h hA
            have hA' : l.any isOtherElem = true := by
              have := all_isIntOrMarker_eq l
              rw [hAf] at this
              cases h : l.any isOtherElem
              · rw [h] at this; simp at this
              · rfl
            constructor
            · intro _
              simp [invalidTotalSize, hA']
            · intro _
              exact ⟨ScalingError.typeError, by simp [_get_scaling, hAf]⟩

/-! ### Discovery-loop and filtering lemmas -/

theorem foldl_discoverStep_preserve (rv_values : ValueMap) (tags : Tags)
    (transformed : Bool) (v w : Variable)
    (hv : ∀ tv, tagValueOpt tags v = some tv → (PDict.lookup rv_values v).getD tv = w) :
    ∀ (l : List Variable) (st : ValueMap × List (Variable × Transform)),
      PDict.lookup st.1 v = some w →
      PDict.lookup ((l.foldl (discoverStep rv_values tags transformed) st)).1 v = some w := by
  intro l
  induction l with
  | nil => intro st hst; exact hst
  | cons c t ih =>
      intro st hst
      simp only [List.foldl_cons]
      apply ih
      unfold discoverStep
      cases hc : tagValueOpt tags c with
      | none => exact hst
      | some tv =>
          simp only
          rw [PDict.lookup_insert]
          by_cases hcv : c = v
          · subst hcv
            rw [if_pos rfl]
            rw [hv tv hc]
          · rw [if_neg hcv]
            exact hst

theorem foldl_discoverStep_visited (rv_values : ValueMap) (tags : Tags)
    (transformed : Bool) (v w : Variable)
    (htag : tagValueOpt tags v = some w)
    (hrv : PDict.lookup rv_values v = Option.none) :
    ∀ (l : List Variable) (st : ValueMap × List (Variable × Transform)),
      v ∈ l →
      (PDict.lookup st.1 v = Option.none ∨ PDict.lookup st.1 v = some w) →
      PDict.lookup ((l.foldl (discoverStep rv_values tags transformed) st)).1 v = some w := by
  have hv : ∀ tv, tagValueOpt tags v = some tv → (PDict.lookup rv_values v).getD tv = w := by
    intro tv htv
    rw [htag] at htv
    cases htv
    rw [hrv]
    rfl
  intro l
  induction l with
  | nil => intro st hmem; simp at hmem
  | cons c t ih =>
      intro st hmem hst
      simp only [List.foldl_cons]
      by_cases hcv : c = v
      · subst hcv
        have hstep : PDict.lookup ((discoverStep rv_values tags transformed st c)).1 c
            = some w := by
          unfold discoverStep
          rw [htag]
          simp only
          rw [PDict.lookup_insert, if_pos rfl, hrv]
          rfl
        exact foldl_discoverStep_preserve rv_values tags transformed c w hv t _ hstep
      · have hmem' : v ∈ t := by
          rcases List.mem_cons.mp hmem with h | h
          · exact absurd h.symm hcv
          · exact h
        apply ih _ hmem'
        unfold discoverStep
        cases hc : tagValueOpt tags c with
        | none => exact hst
        | some tv =>
            simp only
            rw [PDict.lookup_insert, if_neg hcv]
            exact hst

theorem filterLogp_keys_sub (temp : List (Variable × NamedTensor)) (rv_values : ValueMap) :
    ∀ k, k ∈ PDict.keys (filterLogp temp rv_values) → k ∈ PDict.values rv_values := by
  have main : ∀ (l : List (Variable × NamedTensor)) (acc : List (Variable × NamedTensor)),
      (∀ k, k ∈ PDict.keys acc → k ∈ PDict.values rv_values) →
      ∀ k, k ∈ PDict.keys (l.foldl
        (fun acc p =>
          if p.1 ∈ PDict.values rv_values then PDict.insert acc p.1 p.2 else acc) acc) →
        k ∈ PDict.values rv_values := by
    intro l
    induction l with
    | nil => intro acc hacc k hk; exact hacc k hk
    | cons p t ih =>
        intro acc hacc k hk
        simp only [List.foldl_cons] at hk
        by_cases hp : p.1 ∈ PDict.values rv_values
        · rw [if_pos hp] at hk
          refine ih _ ?_ k hk
          intro k0 hk0
          rcases PDict.mem_keys_insert hk0 with h | h
          · subst h; exact hp
          · exact hacc k0 h
        · rw [if_neg hp] at hk
          exact ih _ hacc k hk
  intro k hk
  exact main temp [] (by intro k0 hk0; simp [PDict.keys] at hk0) k hk

theorem filterLogp_ne_nil (rv_values : ValueMap) :
    ∀ (temp : List (Variable × NamedTensor)) (acc : List (Variable × NamedTensor))
      (p : Variable × NamedTensor), p ∈ temp → p.1 ∈ PDict.values rv_values →
      temp.foldl
        (fun acc q =>
          if q.1 ∈ PDict.values rv_values then PDict.insert acc q.1 q.2 else acc) acc ≠ [] := by
  have keep : ∀ (l : List (Variable × NamedTensor)) (acc : List (Variable × NamedTensor)),
      acc ≠ [] →
      l.foldl
        (fun acc q =>
          if q.1 ∈ PDict.values rv_values then PDict.insert acc q.1 q.2 else acc) acc ≠ [] := by
    intro l
    induction l with
    | nil => intro acc hacc; exact hacc
    | cons q t ih =>
        intro acc hacc
        simp only [List.foldl_cons]
        by_cases hq : q.1 ∈ PDict.values rv_values
        · rw [if_pos hq]
          exact ih _ (PDict.insert_ne_nil acc q.1 q.2)
        · rw [if_neg hq]
          exact ih _ hacc
  intro temp
  induction temp with
  | nil => intro acc p hp; simp at hp
  | cons q t ih =>
      intro acc p hp hpv
      simp only [List.foldl_cons]
      rcases List.mem_cons.mp hp with h | h
      · subst h
        rw [if_pos hpv]
        exact keep t _ (PDict.insert_ne_nil acc p.1 p.2)
      · by_cases hq : q.1 ∈ PDict.values rv_values
        · rw [if_pos hq]
          exact ih _ p h hpv
        · rw [if_neg hq]
          exact ih _ p h hpv

/-! ### Claim C5: precedence of the caller's explicit value map in discovery -/

/-- C5: in the discovery pass, every Variable named in the caller-supplied
explicit value map stays bound to the caller's value in the merged full value
map, while every inspected variable the caller did not mention that carries an
observed/free-value tag is bound to that tagged value. -/
theorem logpt_C5 (nodes : List Node) (m : ValueMap) (tags : Tags) (transformed : Bool) :
    (∀ v w, PDict.lookup m v = some w →
        PDict.lookup (discover nodes m tags transformed).1 v = some w)
      ∧ (∀ v w, v ∈ discoveredVars nodes →
          PDict.lookup m v = Option.none →
          tagValueOpt tags v = some w →
          PDict.lookup (discover nodes m tags transformed).1 v = some w) := by
  constructor
  · intro v w hvw
    apply foldl_discoverStep_preserve m tags transformed v w
    · intro tv _
      rw [hvw]
      rfl
    · exact hvw
  · intro v w hmem hnone htag
    exact foldl_discoverStep_visited m tags transformed v w htag hnone
      (discoveredVars nodes) (m, []) hmem (Or.inl hnone)

/-! ### Claim C1: nested-parameter densities are filtered out of the output -/

/-- C1: a random-variable node discovered solely as a nested parameter — it is
inspected by the traversal, carries a tagged value `w`, and neither it nor `w`
appears in the caller's requested map — is passed to the external joint-density
builder inside the full value map, yet `w` never appears among the value
variables of the filtered output map, whatever the builder returns. -/
theorem logpt_C1 (nodes : List Node) (builder : Builder) (m : ValueMap)
    (tags : Tags) (transformed jacobian : Bool) (v w : Variable)
    (hvis : v ∈ discoveredVars nodes)
    (hnotreq : PDict.lookup m v = Option.none)
    (htag : tagValueOpt tags v = some w)
    (hval : w ∉ PDict.values m) :
    PDict.lookup (discover nodes m tags transformed).1 v = some w
      ∧ w ∉ PDict.keys
          (filterLogp
            (builder (discover nodes m tags transformed).1
              (discover nodes m tags transformed).2 jacobian) m) := by
  constructor
  · exact foldl_discoverStep_visited m tags transformed v w htag hnotreq
      (discoveredVars nodes) (m, []) hvis (Or.inl hnotreq)
  · intro hmem
    exact hval (filterLogp_keys_sub _ m w hmem)

/-! ### Claim C10: the default requested-value map keeps only the last RV -/

theorem defaultRv_foldl (tags : Tags) :
    ∀ (vars : List Variable) (acc : ValueMap),
      vars.foldl (fun acc v => if v.isRV then [(v, tagValueOrSelf tags v)] else acc) acc =
        (match (vars.filter (fun u => u.isRV)).getLast? with
          | some v => [(v, tagValueOrSelf tags v)]
          | Option.none => acc) := by
  intro vars
  induction vars with
  | nil => intro acc; rfl
  | cons u t ih =>
      intro acc
      simp only [List.foldl_cons, List.filter_cons]
      by_cases hu : u.isRV = true
      · rw [if_pos hu]
        simp only [hu]
        rw [ih [(u, tagValueOrSelf tags u)]]
        cases hft : t.filter (fun u => u.isRV) with
        | nil => simp
        | cons x xs =>
            cases hgl : (x :: xs).getLast? with
            | none =>
                rw [List.getLast?_eq_none_iff] at hgl
                exact absurd hgl (by simp)
            | some y => simp [List.getLast?_cons_cons, hgl]
      · rw [if_neg hu]
        have hu' : u.isRV = false := by
          cases h : u.isRV
          · rfl
          · exact absurd h hu
        simp only [hu']
        rw [ih acc]
        simp

/-- C10: when `logpt` is called with `rv_values = None` and a list of
variables, the default requested-value map is reassigned (not extended) on
each random-variable iteration, so it is the singleton for the last
random-variable element (empty when there is none); consequently only that
variable's value can key the filtered density map. -/
theorem logpt_C10 (vars : List Variable) (tags : Tags) :
    normalizeRvValues vars tags RVValues.none = defaultRvValues vars tags
      ∧ defaultRvValues vars tags =
          (match (vars.filter (fun u => u.isRV)).getLast? with
            | some v => [(v, tagValueOrSelf tags v)]
            | Option.none => [])
      ∧ (∀ v, (vars.filter (fun u => u.isRV)).getLast? = some v →
          ∀ (temp : List (Variable × NamedTensor)) k,
            k ∈ PDict.keys (filterLogp temp (defaultRvValues vars tags)) →
            k = tagValueOrSelf tags v) := by
  refine ⟨rfl, defaultRv_foldl tags vars [], ?_⟩
  intro v hlast temp k hk
  have hd : defaultRvValues vars tags = [(v, tagValueOrSelf tags v)] := by
    have h := defaultRv_foldl tags vars []
    unfold defaultRvValues
    rw [h, hlast]
  rw [hd] at hk
  have := filterLogp_keys_sub temp [(v, tagValueOrSelf tags v)] k hk
  simpa [PDict.values] using this

/-! ### Running `logpt` once the scaling map is known -/

theorem discover_preserves_lookup (nodes : List Node) (rv_values : ValueMap)
    (tags : Tags) (transformed : Bool) (v w : Variable)
    (h : PDict.lookup rv_values v = some w) :
    PDict.lookup (discover nodes rv_values tags transformed).1 v = some w := by
  apply foldl_discoverStep_preserve rv_values tags transformed v w
  · intro tv _
    rw [h]
    rfl
  · exact h

theorem logpt_run (nodes : List Node) (builder : Builder) (var : List Variable)
    (rv_values : RVValues) (tags : Tags) (jacobian scaling transformed sum : Bool)
    (scalings : List (Variable × ℚ))
    (hsc : (if scaling then rvScalings var tags else Except.ok []) = Except.ok scalings) :
    logpt nodes builder var rv_values tags jacobian scaling transformed sum =
      (if (filterLogp
            (builder (discover nodes (normalizeRvValues var tags rv_values) tags transformed).1
              (discover nodes (normalizeRvValues var tags rv_values) tags transformed).2 jacobian)
            (normalizeRvValues var tags rv_values)).isEmpty
        then
          Except.ok
            { result := Option.none, warned := (normalizeRvValues var tags rv_values).isEmpty }
        else
          Except.ok
            { result :=
                some
                  (reduceLogp
                    (if scaling then
                      applyScalings
                        (filterLogp
                          (builder
                            (discover nodes (normalizeRvValues var tags rv_values) tags
                              transformed).1
                            (discover nodes (normalizeRvValues var tags rv_values) tags
                              transformed).2 jacobian)
                          (normalizeRvValues var tags rv_values))
                        scalings
                    else
                      filterLogp
                        (builder
                          (discover nodes (normalizeRvValues var tags rv_values) tags
                            transformed).1
                          (discover nodes (normalizeRvValues var tags rv_values) tags
                            transformed).2 jacobian)
                        (normalizeRvValues var tags rv_values))
                    sum),
              warned := (normalizeRvValues var tags rv_values).isEmpty }) := by
  unfold logpt
  rw [hsc]

/-! ### Claim C6: empty-map diagnostics and the `None` result -/

/-- C6: whenever `logpt` returns, the empty-value-map diagnostic was emitted if
the merged full value map is empty; and whenever the filtered density map is
empty (with the external builder honouring its contract of covering every value
it was given), `logpt` returns `None` and the diagnostic was emitted. -/
theorem logpt_C6 (nodes : List Node) (builder : Builder) (var : List Variable)
    (rv_values : RVValues) (tags : Tags) (jacobian scaling transformed sum : Bool)
    (out : LogptOutput)
    (hok : logpt nodes builder var rv_values tags jacobian scaling transformed sum
        = Except.ok out) :
    ((discover nodes (normalizeRvValues var tags rv_values) tags transformed).1 = [] →
        out.warned = true)
      ∧ ((∀ u,
            u ∈ PDict.values
              (discover nodes (normalizeRvValues var tags rv_values) tags transformed).1 →
            u ∈ PDict.keys
              (builder (discover nodes (normalizeRvValues var tags rv_values) tags transformed).1
                (discover nodes (normalizeRvValues var tags rv_values) tags transformed).2
                jacobian)) →
          filterLogp
            (builder (discover nodes (normalizeRvValues var tags rv_values) tags transformed).1
              (discover nodes (normalizeRvValues var tags rv_values) tags transformed).2 jacobian)
            (normalizeRvValues var tags rv_values) = [] →
          out.result = Option.none ∧ out.warned = true) := by
  cases hsc : (if scaling then rvScalings var tags else Except.ok []) with
  | error e =>
      unfold logpt at hok
      rw [hsc] at hok
      simp at hok
  | ok scalings =>
      rw [logpt_run nodes builder var rv_values tags jacobian scaling transformed sum
        scalings hsc] at hok
      have hempty : (normalizeRvValues var tags rv_values) ≠ [] →
          (discover nodes (normalizeRvValues var tags rv_values) tags transformed).1 ≠ [] := by
        intro hne htmp
        cases hrvv : normalizeRvValues var tags rv_values with
        | nil => exact hne hrvv
        | cons p rest =>
            have hlk : PDict.lookup (normalizeRvValues var tags rv_values) p.1 = some p.2 := by
              rw [hrvv]
              exact PDict.lookup_head
            have := discover_preserves_lookup nodes _ tags transformed p.1 p.2 hlk
            rw [htmp] at this
            simp [PDict.lookup] at this
      have hwarned : out.warned = (normalizeRvValues var tags rv_values).isEmpty := by
        by_cases hfe :
            (filterLogp
              (builder (discover nodes (normalizeRvValues var tags rv_values) tags transformed).1
                (discover nodes (normalizeRvValues var tags rv_values) tags transformed).2
                jacobian)
              (normalizeRvValues var tags rv_values)).isEmpty = true
        · rw [if_pos hfe] at hok
          simp only [Except.ok.injEq] at hok
          rw [← hok]
        · rw [if_neg hfe] at hok
          simp only [Except.ok.injEq] at hok
          rw [← hok]
      constructor
      · intro htmp
        have hrvv : normalizeRvValues var tags rv_values = [] := by
          by_contra hne
          exact hempty hne htmp
        rw [hwarned, hrvv]
        rfl
      · intro hcover hflt
        have hrvv : normalizeRvValues var tags rv_values = [] := by
          cases hrvv : normalizeRvValues var tags rv_values with
          | nil => rfl
          | cons p rest =>
              exfalso
              have hlk : PDict.lookup (normalizeRvValues var tags rv_values) p.1 = some p.2 := by
                rw [hrvv]
                exact PDict.lookup_head
              have htmp := discover_preserves_lookup nodes _ tags transformed p.1 p.2 hlk
              have hmemv := PDict.mem_values_of_lookup htmp
              have hkey := hcover p.2 hmemv
              rcases List.mem_map.mp hkey with ⟨q, hq, hq1⟩
              have hpv : q.1 ∈ PDict.values (normalizeRvValues var tags rv_values) := by
                rw [hq1, hrvv]
                simp [PDict.values]
              exact filterLogp_ne_nil (normalizeRvValues var tags rv_values) _ [] q hq hpv hflt
        have hfe : (filterLogp
            (builder (discover nodes (normalizeRvValues var tags rv_values) tags transformed).1
              (discover nodes (normalizeRvValues var tags rv_values) tags transformed).2 jacobian)
            (normalizeRvValues var tags rv_values)).isEmpty = true := by
          rw [hflt]
          rfl
        rw [if_pos hfe] at hok
        simp only [Except.ok.injEq] at hok
        rw [← hok]
        exact ⟨rfl, by rw [hrvv]; rfl⟩

/-! ### Elementwise-addition lemmas for claim C2 -/

theorem zipWith_add_getD (a : List ℚ) :
    ∀ (b : List ℚ) (i : Nat), i < a.length → i < b.length →
      (List.zipWith (fun x y => x + y) a b).getD i 0 = a.getD i 0 + b.getD i 0 := by
  induction a with
  | nil => intro b i hi _; simp at hi
  | cons x t ih =>
      intro b i hi hib
      cases b with
      | nil => simp at hib
      | cons y u =>
          cases i with
          | zero => simp
          | succ i =>
              simp only [List.zipWith_cons_cons, List.getD_cons_succ]
              exact ih u i (by simpa using hi) (by simpa using hib)

theorem foldl_zipAdd (n : Nat) :
    ∀ (ts : List NamedTensor) (acc : List ℚ), acc.length = n →
      (∀ t ∈ ts, t.data.length = n) →
      (ts.foldl (fun a u => List.zipWith (fun x y => x + y) a u.data) acc).length = n
        ∧ ∀ i, i < n →
            (ts.foldl (fun a u => List.zipWith (fun x y => x + y) a u.data) acc).getD i 0
              = acc.getD i 0 + (ts.map (fun t => t.data.getD i 0)).sum := by
  intro ts
  induction ts with
  | nil =>
      intro acc hacc _
      exact ⟨hacc, fun i _ => by simp⟩
  | cons t rest ih =>
      intro acc hacc hts
      have ht : t.data.length = n := hts t (by simp)
      have hlen : (List.zipWith (fun x y => x + y) acc t.data).length = n := by
        rw [List.length_zipWith, hacc, ht]
        omega
      have hrest : ∀ u ∈ rest, u.data.length = n := fun u hu => hts u (by simp [hu])
      obtain ⟨ihlen, ihget⟩ := ih (List.zipWith (fun x y => x + y) acc t.data) hlen hrest
      refine ⟨ihlen, ?_⟩
      intro i hi
      simp only [List.foldl_cons]
      rw [ihget i hi,
        zipWith_add_getD acc t.data i (by omega) (by omega)]
      simp [add_assoc]

theorem atAddList_spec (d : List (Variable × NamedTensor)) (n : Nat)
    (hne : d ≠ []) (hlen : ∀ p ∈ d, p.2.data.length = n) :
    (atAddList (d.map (fun p => p.2))).name = Option.none
      ∧ (atAddList (d.map (fun p => p.2))).data.length = n
      ∧ ∀ i, i < n →
          (atAddList (d.map (fun p => p.2))).data.getD i 0
            = (d.map (fun p => p.2.data.getD i 0)).sum := by
  cases d with
  | nil => exact absurd rfl hne
  | cons p rest =>
      have hp : p.2.data.length = n := hlen p (by simp)
      have hrest : ∀ u ∈ rest.map (fun p => p.2), u.data.length = n := by
        intro u hu
        rcases List.mem_map.mp hu with ⟨q, hq, hq2⟩
        rw [← hq2]
        exact hlen q (by simp [hq])
      obtain ⟨hl, hg⟩ := foldl_zipAdd n (rest.map (fun p => p.2)) p.2.data hp hrest
      refine ⟨rfl, hl, ?_⟩
      intro i hi
      simp only [atAddList, List.map_cons]
      rw [hg i hi]
      simp only [List.map_map, List.sum_cons]
      rfl

/-! ### Claim C2: the reduction step of `logpt` -/

/-- C2: with scaling off, when the filtered density map holds exactly one
per-value tensor, `logpt` returns that tensor summed to a scalar under
`sum=True` and the unreduced tensor under `sum=False`; with more than one
entry, `sum=True` yields the sum of the per-value scalar sums and `sum=False`
the elementwise addition of all per-value tensors. -/
theorem logpt_C2 (nodes : List Node) (builder : Builder) (var : List Variable)
    (rv_values : RVValues) (tags : Tags) (jacobian transformed : Bool) (n : Nat) :
    (∀ k t,
        filterLogp
            (builder (discover nodes (normalizeRvValues var tags rv_values) tags transformed).1
              (discover nodes (normalizeRvValues var tags rv_values) tags transformed).2 jacobian)
            (normalizeRvValues var tags rv_values) = [(k, t)] →
        (logpt nodes builder var rv_values tags jacobian false transformed true).map
            LogptOutput.result
          = Except.ok (some { name := Option.none, data := [t.data.sum] })
        ∧ (logpt nodes builder var rv_values tags jacobian false transformed false).map
            LogptOutput.result = Except.ok (some t))
      ∧ (∀ d,
          filterLogp
              (builder (discover nodes (normalizeRvValues var tags rv_values) tags transformed).1
                (discover nodes (normalizeRvValues var tags rv_values) tags transformed).2
                jacobian)
              (normalizeRvValues var tags rv_values) = d →
          2 ≤ d.length →
          ((logpt nodes builder var rv_values tags jacobian false transformed true).map
              LogptOutput.result
            = Except.ok
                (some { name := Option.none, data := [(d.map (fun p => p.2.data.sum)).sum] }))
          ∧ ((∀ p ∈ d, p.2.data.length = n) →
              ∃ r,
                (logpt nodes builder var rv_values tags jacobian false transformed false).map
                    LogptOutput.result = Except.ok (some r)
                  ∧ r.name = Option.none
                  ∧ r.data.length = n
                  ∧ ∀ i, i < n →
                      r.data.getD i 0 = (d.map (fun p => p.2.data.getD i 0)).sum)) := by
  have hrun := fun sum =>
    logpt_run nodes builder var rv_values tags jacobian false transformed sum [] rfl
  constructor
  · intro k t hd
    rw [hrun true, hrun false, hd]
    constructor
    · simp [reduceLogp, atSum, Except.map]
    · simp [reduceLogp, Except.map]
  · intro d hd hlen2
    have hone : ¬ d.length = 1 := by omega
    have hne : d ≠ [] := by
      cases d with
      | nil => simp at hlen2
      | cons p rest => simp
    have hie : d.isEmpty = false := by
      cases d with
      | nil => simp at hlen2
      | cons p rest => rfl
    rw [hrun true, hrun false, hd]
    constructor
    · simp [hie, reduceLogp, hone, Except.map]
    · intro hdl
      obtain ⟨hname, hl, hg⟩ := atAddList_spec d n hne hdl
      refine ⟨atAddList (d.map (fun p => p.2)), ?_, hname, hl, hg⟩
      simp [hie, reduceLogp, hone, Except.map]

/-! ### Claim C7: `logpt` does not name its result -/

theorem reduceLogp_true_name (d : List (Variable × NamedTensor)) :
    (reduceLogp d true).name = Option.none := by
  unfold reduceLogp
  by_cases h : d.length = 1 <;> simp [h, atSum]

/-- C7 (amended): `logpt` never derives a name from the target: with
`sum=True` (the default), the returned Variable carries no name at all,
whatever the targets are named.  (Result naming from the target's name is done
only by `logcdfpt`.) -/
theorem logpt_C7_amended (nodes : List Node) (builder : Builder) (var : List Variable)
    (rv_values : RVValues) (tags : Tags) (jacobian scaling transformed : Bool)
    (out : LogptOutput) (t : NamedTensor)
    (hok : logpt nodes builder var rv_values tags jacobian scaling transformed true
        = Except.ok out)
    (hres : out.result = some t) : t.name = Option.none := by
  cases hsc : (if scaling then rvScalings var tags else Except.ok []) with
  | error e =>
      unfold logpt at hok
      rw [hsc] at hok
      simp at hok
  | ok scalings =>
      rw [logpt_run nodes builder var rv_values tags jacobian scaling transformed true
        scalings hsc] at hok
      by_cases hfe :
          (filterLogp
            (builder (discover nodes (normalizeRvValues var tags rv_values) tags transformed).1
              (discover nodes (normalizeRvValues var tags rv_values) tags transformed).2
              jacobian)
            (normalizeRvValues var tags rv_values)).isEmpty = true
      · rw [if_pos hfe] at hok
        simp only [Except.ok.injEq] at hok
        rw [← hok] at hres
        simp at hres
      · rw [if_neg hfe] at hok
        simp only [Except.ok.injEq] at hok
        rw [← hok] at hres
        simp only [Option.some.injEq] at hres
        rw [← hres]
        exact reduceLogp_true_name _

/-! ### Claim C9: `logp` tags only untagged targets, idempotently -/

/-- C9: `logp` attaches the (type-coerced) value as the target's `value_var`
tag only when the target has no free-value tag yet; calling `logp` again on
the now-tagged target leaves the tag table unchanged and returns the identical
compiled output. -/
theorem logp_C9 (nodes : List Node) (builder : Builder) (v : Variable)
    (rv_values : RVValues) (tags : Tags) (jacobian scaling transformed sum : Bool)
    (out : Except ScalingError LogptOutput) (tags1 : Tags)
    (h : logp nodes builder v rv_values tags jacobian scaling transformed sum
        = some (out, tags1)) :
    (((tags v).value_var).isSome = true → tags1 = tags)
      ∧ ((tags v).value_var = Option.none →
          ∃ w, logpValueFor rv_values v = some w
            ∧ tags1 = updateValueVar tags v (asType w v.dtype))
      ∧ logp nodes builder v rv_values tags1 jacobian scaling transformed sum
          = some (out, tags1) := by
  unfold logp at h
  by_cases hv : ((tags v).value_var).isSome = true
  · rw [if_pos hv] at h
    simp only [Option.some.injEq, Prod.mk.injEq] at h
    obtain ⟨h1, h2⟩ := h
    subst h2
    refine ⟨fun _ => rfl, ?_, ?_⟩
    · intro hnone
      rw [hnone] at hv
      simp at hv
    · unfold logp
      rw [if_pos hv, h1]
  · rw [if_neg hv] at h
    cases hw : logpValueFor rv_values v with
    | none =>
        rw [hw] at h
        simp at h
    | some w =>
        rw [hw] at h
        simp only [Option.map_some', Option.some.injEq, Prod.mk.injEq] at h
        obtain ⟨h1, h2⟩ := h
        refine ⟨fun hvs => absurd hvs hv, fun _ => ⟨w, rfl, h2.symm⟩, ?_⟩
        unfold logp
        have htag1 : ((tags1 v).value_var).isSome = true := by
          rw [← h2]
          simp [updateValueVar]
        rw [if_pos htag1, ← h2, h1]

/-! ### Claim C8: value resolution and the missing-value error in `logcdfpt` -/

/-- C8: in `logcdfpt`, the explicit value argument takes precedence over the
target's tagged free value, and when the target resolves to a random variable
with neither an explicit nor a tagged value available, the call fails with the
missing-value error. -/
theorem logcdfpt_C8 (dispatch : Variable → ValueMap → Option NamedTensor)
    (subst : NamedTensor → ValueMap → NamedTensor)
    (var : Variable) (m : ValueMap) (w : Variable) (tags : Tags) (scaling sum : Bool) :
    (var.isRV = true → PDict.lookup m var = some w →
        resolveCdfValue m (extract_rv_and_value_vars tags var).1
          (extract_rv_and_value_vars tags var).2 = some w)
      ∧ (var.isRV = true → PDict.lookup m var = Option.none →
          (tags var).value_var = Option.none →
          logcdfpt dispatch subst var (RVValues.map m) tags scaling sum
            = Except.error CdfError.missingValue) := by
  constructor
  · intro hrv hlk
    simp [extract_rv_and_value_vars, hrv, resolveCdfValue, hlk, Option.orElse]
  · intro hrv hlk htag
    unfold logcdfpt
    simp [normalizeCdfValues, extract_rv_and_value_vars, hrv, resolveCdfValue, hlk, htag,
      Option.orElse]

/-! ### Concrete fixtures -/

/-- A named random variable of shape `(3,)`. -/
def vX : Variable :=
  { id := 0, name := some "x", dtype := "float64", shape := [3], isRV := true }

/-- The value variable tagged on `vX`. -/
def vXval : Variable :=
  { id := 1, name := some "x_value", dtype := "float64", shape := [3], isRV := false }

/-- A second random variable (e.g. a nested parameter of `vX`). -/
def vY : Variable :=
  { id := 2, name := some "y", dtype := "float64", shape := [3], isRV := true }

/-- The value variable tagged on `vY`. -/
def vYval : Variable :=
  { id := 3, name := some "y_value", dtype := "float64", shape := [3], isRV := false }

/-- Tag table: `vX` and `vY` carry free-value tags, nothing else. -/
def cTags : Tags := fun v =>
  if v = vX then { value_var := some vXval }
  else if v = vY then { value_var := some vYval }
  else {}

/-- Empty tag table (no variable tagged). -/
def cTags0 : Tags := fun _ => {}

/-- Topological traversal visiting `vY` (the nested parameter) then `vX`. -/
def cNodes : List Node :=
  [{ defaultOutput := some vY }, { defaultOutput := some vX }]

/-- The elementwise density graph the test builder returns for each value. -/
def cLp : NamedTensor := { name := some "lp", data := [1, 2, 3] }

/-- A builder honouring the aeppl contract: one density per provided value. -/
def cBuilder : Builder := fun tmp _ _ => tmp.map (fun p => (p.2, cLp))

/-- Like `cBuilder` but with empty elementwise data (its sums are trivial). -/
def cBuilder0 : Builder :=
  fun tmp _ _ => tmp.map (fun p => (p.2, { name := some "lp", data := [] }))

/-- The tag table after `logp` has tagged `vX`. -/
def cTags1 : Tags := updateValueVar cTags0 vX (asType vXval vX.dtype)

/-- The compiled output of the first `logp` call in the C9 witness. -/
def cOut9 : Except ScalingError LogptOutput :=
  logpt cNodes cBuilder [vX] (RVValues.single vXval) cTags1 true false true true

/-! ### Witnesses and the C7 counterexample -/

/-- C5 witness: the caller's requested pair survives discovery, and the
unrequested tagged variable `vY` is bound to its tagged value. -/
theorem logpt_C5_witness :
    PDict.lookup (discover cNodes [(vX, vXval)] cTags true).1 vX = some vXval
      ∧ PDict.lookup (discover cNodes [(vX, vXval)] cTags true).1 vY = some vYval :=
  ⟨(logpt_C5 cNodes [(vX, vXval)] cTags true).1 vX vXval (by decide),
    (logpt_C5 cNodes [(vX, vXval)] cTags true).2 vY vYval (by decide) (by decide) (by decide)⟩

/-- C1 witness: the nested `vY` is in the map passed to the builder, yet its
value never keys the filtered output. -/
theorem logpt_C1_witness :
    PDict.lookup (discover cNodes [(vX, vXval)] cTags true).1 vY = some vYval
      ∧ vYval ∉ PDict.keys
          (filterLogp
            (cBuilder (discover cNodes [(vX, vXval)] cTags true).1
              (discover cNodes [(vX, vXval)] cTags true).2 true)
            [(vX, vXval)]) :=
  logpt_C1 cNodes cBuilder [(vX, vXval)] cTags true true vY vYval (by decide) (by decide)
    (by decide) (by decide)

/-- C10 witness: with `rv_values = None` and the list `[vX, vY]`, the default
map retains only the last random variable `vY`, and only its value can key the
filtered output. -/
theorem logpt_C10_witness :
    defaultRvValues [vX, vY] cTags = [(vY, tagValueOrSelf cTags vY)]
      ∧ vYval = tagValueOrSelf cTags vY := by
  have h := logpt_C10 [vX, vY] cTags
  refine ⟨?_, ?_⟩
  · rw [h.2.1]
    decide
  · exact h.2.2 vY (by decide) [(vYval, { name := Option.none, data := [1] })] vYval
      (by decide)

/-- C6 witness: with no requested values at all, `logpt` returns `None` and
the diagnostic flag is set. -/
theorem logpt_C6_witness :
    ({ result := Option.none, warned := true } : LogptOutput).result = Option.none
      ∧ ({ result := Option.none, warned := true } : LogptOutput).warned = true := by
  have h := logpt_C6 [] (fun _ _ _ => []) [] (RVValues.map []) cTags true true true true
    { result := Option.none, warned := true } rfl
  exact ⟨(h.2 (fun u hu => absurd hu (List.not_mem_nil u)) rfl).1, h.1 rfl⟩

/-- C2 witness: two requested values of shape `(3,)` with densities `[1,2,3]`
each give `sum(a) + sum(b) = 12` under `sum=True`; a single requested value
under `sum=False` is returned unreduced. -/
theorem logpt_C2_witness :
    (logpt cNodes cBuilder [vX] (RVValues.map [(vX, vXval), (vY, vYval)]) cTags true false true
          true).map LogptOutput.result
        = Except.ok (some { name := Option.none, data := [12] })
      ∧ (logpt cNodes cBuilder [vX] (RVValues.map [(vX, vXval)]) cTags true false true
            false).map LogptOutput.result = Except.ok (some cLp) := by
  constructor
  · have h2 := ((logpt_C2 cNodes cBuilder [vX] (RVValues.map [(vX, vXval), (vY, vYval)]) cTags
      true true 3).2 [(vXval, cLp), (vYval, cLp)] (by decide) (by decide)).1
    rw [h2]
    norm_num [cLp]
  · exact ((logpt_C2 cNodes cBuilder [vX] (RVValues.map [(vX, vXval)]) cTags true true 3).1
      vXval cLp (by decide)).2

/-- C7 counterexample: a call with exactly one target named `"x"` returns a
Variable carrying no name at all (in particular, none derived from `"x"`). -/
theorem logpt_C7_counterexample :
    vX.name = some "x"
      ∧ (logpt cNodes cBuilder0 [vX] (RVValues.map [(vX, vXval)]) cTags true false true true).map
          (fun o => o.result.map NamedTensor.name) = Except.ok (some Option.none) := by
  exact ⟨rfl, by decide⟩

/-- C7 (amended) witness: the concrete single-target call returns an unnamed
Variable. -/
theorem logpt_C7_witness :
    ({ name := Option.none, data := [0] } : NamedTensor).name = Option.none :=
  logpt_C7_amended cNodes cBuilder0 [vX] (RVValues.map [(vX, vXval)]) cTags true false true
    { result := some { name := Option.none, data := [0] }, warned := false }
    { name := Option.none, data := [0] } (by decide) rfl

/-- C9 witness: after a first `logp` call has tagged `vX`, a second call
returns the identical output and the identical tag table. -/
theorem logp_C9_witness :
    logp cNodes cBuilder vX (RVValues.single vXval) cTags1 true false true true
      = some (cOut9, cTags1) := by
  have h := logp_C9 cNodes cBuilder vX (RVValues.single vXval) cTags0 true false true true
    cOut9 cTags1 rfl
  exact h.2.2

/-- C8 witness: the explicit value wins over the tag for `vX`; with no map
entry and no tag, `logcdfpt` fails with the missing-value error. -/
theorem logcdfpt_C8_witness :
    resolveCdfValue [(vX, vXval)] (extract_rv_and_value_vars cTags vX).1
        (extract_rv_and_value_vars cTags vX).2 = some vXval
      ∧ logcdfpt (fun _ _ => Option.none) (fun t _ => t) vX (RVValues.map []) cTags0 true true
          = Except.error CdfError.missingValue := by
  constructor
  · exact (logcdfpt_C8 (fun _ _ => Option.none) (fun t _ => t) vX [(vX, vXval)] vXval cTags
      true true).1 rfl (by decide)
  · exact (logcdfpt_C8 (fun _ _ => Option.none) (fun t _ => t) vX [] vXval cTags0
      true true).2 rfl (by decide) (by decide)

/-- C4 witness: a double-`Ellipsis` specification is malformed and makes
`_get_scaling` fail. -/
theorem scaling_C4_witness :
    invalidTotalSize (some (TotalSize.seq [TSElem.ellipsis, TSElem.ellipsis])) 2 = true
      ∧ ∃ e, _get_scaling (some (TotalSize.seq [TSElem.ellipsis, TSElem.ellipsis])) [10, 5] 2
          = Except.error e :=
  ⟨by decide,
    (scaling_C4 (some (TotalSize.seq [TSElem.ellipsis, TSElem.ellipsis])) [10, 5] 2).mpr
      (by decide)⟩

end PyMC
